import Mathlib

/-!
Verification of the django-copybook fixed-width field layer
(src/djcopybook/fixedwidth/fields.py) against its specification.

Text is modelled as `List Char`.  Python `None`-or-text values are
`Option (List Char)`.  Fallible operations return `Except PyErr _`.
-/

set_option autoImplicit false

namespace DjCopybook

variable {α β γ ρ κ : Type}

/-- Python exception values raised by the field layer. -/
inductive PyErr where
  | fieldLengthError (msg : List Char)
  | typeError (msg : List Char)
  | valueError (msg : List Char)
  | keyError (msg : List Char)
  deriving DecidableEq

/-- Characters stripped by Python str.strip with no argument. -/
def pyIsSpace (c : Char) : Bool :=
  c == ' ' || c == '\t' || c == '\n' || c == '\r' || c == '\x0b' || c == '\x0c'

/-- Python str.lstrip. -/
def lstripChars (s : List Char) : List Char := s.dropWhile pyIsSpace

/-- Python str.rstrip. -/
def rstripChars (s : List Char) : List Char := (s.reverse.dropWhile pyIsSpace).reverse

/-- Python str.strip. -/
def stripChars (s : List Char) : List Char := lstripChars (rstripChars s)

/-- Decimal digit string of a natural number, as Python str(n) renders it. -/
def natRepr (n : Nat) : List Char :=
  if n = 0 then ['0'] else (Nat.digits 10 n).reverse.map Nat.digitChar

/-- Python str(i) for an integer. -/
def pyIntRepr (i : Int) : List Char :=
  if i < 0 then '-' :: natRepr i.natAbs else natRepr i.toNat

/-- Numeric value of one decimal digit character. -/
def charDigit (c : Char) : Option Nat :=
  if c.isDigit then some (c.toNat - 48) else none

/-- Accumulating decimal parse of a digit string; fails on a non-digit. -/
def parseDigitsAux : Nat → List Char → Option Nat
  | acc, [] => some acc
  | acc, c :: cs =>
    match charDigit c with
    | some d => parseDigitsAux (acc * 10 + d) cs
    | none => none

/-- Decimal parse of a non-empty digit string. -/
def parseDigits : List Char → Option Nat
  | [] => none
  | c :: cs => parseDigitsAux 0 (c :: cs)

/-- Core of Python int(text) on an already-stripped string: an optional
sign followed by a non-empty run of decimal digits. -/
def pyParseIntCore : List Char → Option Int
  | [] => none
  | c :: rest =>
    if c = '-' then (parseDigits rest).map (fun m => -(Int.ofNat m))
    else if c = '+' then (parseDigits rest).map Int.ofNat
    else (parseDigits (c :: rest)).map Int.ofNat

/-- Python int(text): surrounding whitespace is ignored, otherwise an
optional sign followed by decimal digits; `none` models ValueError. -/
def pyParseInt (s : List Char) : Option Int := pyParseIntCore (stripChars s)

/-- Model of fields.str_padding: right space padding up to `length`,
never truncating. -/
def str_padding (length : Nat) (val : List Char) : List Char :=
  val ++ List.replicate (length - val.length) ' '

/-- Model of fields.int_padding: zero fill of the value text up to
`length`; `trailing = true` is direction `<` (zeros appended on the
right), `trailing = false` the default direction `>` (zeros on the left). -/
def int_padding (length : Nat) (val : List Char) (trailing : Bool) : List Char :=
  if trailing then val ++ List.replicate (length - val.length) '0'
  else List.replicate (length - val.length) '0' ++ val

/-- Model of fields.is_blank_string: a textual value whose stripped
content is empty. -/
def is_blank_string (s : List Char) : Bool := (stripChars s).isEmpty

namespace FixedWidthField

/-- FixedWidthField.to_python: None passes through, text is
right-stripped. -/
def to_python (val : Option (List Char)) : Option (List Char) :=
  match val with
  | none => none
  | some s => some (rstripChars s)

/-- FixedWidthField.to_record: None becomes the empty string, then right
space padding to the field width. -/
def to_record (length : Nat) (val : Option (List Char)) : List Char :=
  str_padding length (val.getD [])

/-- The message of the FieldLengthError raised by
FixedWidthField._check_record_length. -/
def lengthErrMsg (attname : List Char) (record_val : List Char) (length : Nat) : List Char :=
  "'".data ++ attname ++ "' value '".data ++ record_val
    ++ "' is longer than ".data ++ natRepr length ++ " chars.".data

/-- FixedWidthField._check_record_length: fails when the encoded value
is strictly longer than the field width. -/
def check_record_length (attname : List Char) (length : Nat) (record_val : List Char) :
    Except PyErr Unit :=
  if length < record_val.length then
    .error (.fieldLengthError (lengthErrMsg attname record_val length))
  else .ok ()

end FixedWidthField

/-- FixedWidthField.get_record_value: encode via `toRec`, truncate to the
field width when auto_truncate is set, then run the (dispatched) length
check and return the encoded value. -/
def get_record_value (toRec : α → List Char) (check : List Char → Except PyErr Unit)
    (auto_truncate : Bool) (length : Nat) (val : α) : Except PyErr (List Char) :=
  let record_val := toRec val
  let record_val2 := if auto_truncate then record_val.take length else record_val
  match check record_val2 with
  | .error e => .error e
  | .ok _ => .ok record_val2

namespace StringField

/-- StringField inherits FixedWidthField.to_python unchanged. -/
def to_python (val : Option (List Char)) : Option (List Char) :=
  FixedWidthField.to_python val

/-- StringField inherits FixedWidthField.to_record unchanged. -/
def to_record (length : Nat) (val : Option (List Char)) : List Char :=
  FixedWidthField.to_record length val

end StringField

namespace NewLineField

/-- NewLineField fixes the field width at 1. -/
def width : Nat := 1

/-- NewLineField.to_python: str(val) with no stripping. -/
def to_python (val : Option (List Char)) : Option (List Char) := val

/-- NewLineField inherits FixedWidthField.to_record, at width 1. -/
def to_record (val : Option (List Char)) : List Char :=
  FixedWidthField.to_record width val

end NewLineField

namespace PostalCodeField

/-- PostalCodeField fixes the field width at 9. -/
def width : Nat := 9

/-- PostalCodeField inherits FixedWidthField.to_python. -/
def to_python (val : Option (List Char)) : Option (List Char) :=
  FixedWidthField.to_python val

/-- PostalCodeField.to_record: None or blank becomes all spaces; a value
parseable as an integer is zero filled with trailing alignment;
otherwise the text is space padded. -/
def to_record (val : Option (List Char)) : List Char :=
  match val with
  | none => str_padding width [' ']
  | some s =>
    if is_blank_string s then str_padding width [' ']
    else
      match pyParseInt s with
      | some _ => int_padding width s true
      | none => str_padding width s

end PostalCodeField

namespace IntegerField

/-- IntegerField.to_python: None or blank text is absent, otherwise
int(val), whose failure is a ValueError. -/
def to_python (val : Option (List Char)) : Except PyErr (Option Int) :=
  match val with
  | none => .ok none
  | some s =>
    if is_blank_string s then .ok none
    else
      match pyParseInt s with
      | some n => .ok (some n)
      | none => .error (.valueError ("invalid literal for int(): ".data ++ s))

/-- IntegerField.to_record: None becomes 0, then leading zero fill of
str(val) to the field width. -/
def to_record (length : Nat) (val : Option Int) : List Char :=
  int_padding length (pyIntRepr (val.getD 0)) false

end IntegerField

/-- A Python datetime.datetime value. -/
structure PyDateTime where
  year : Int
  month : Nat
  day : Nat
  hour : Nat
  minute : Nat
  second : Nat
  deriving DecidableEq

/-- A Python datetime.date value. -/
structure PyDate where
  year : Int
  month : Nat
  day : Nat
  deriving DecidableEq

/-- The shapes of runtime values DateTimeField.to_python can receive:
the four handled types, plus any other type identified by its name. -/
inductive DTInput where
  | pyNone
  | str (s : List Char)
  | datetime (d : PyDateTime)
  | date (d : PyDate)
  | other (tyName : List Char)

namespace DateTimeField

/-- DateTimeField._format_string_date: blank text is absent, otherwise
strptime per the configured format, whose failure is a ValueError. -/
def format_string_date (strptime : List Char → Option PyDateTime) (s : List Char) :
    Except PyErr (Option PyDateTime) :=
  if (stripChars s).isEmpty then .ok none
  else
    match strptime s with
    | some d => .ok (some d)
    | none => .error (.valueError ("time data does not match format".data))

/-- DateTimeField.to_python: a dispatch table keyed by the runtime type
of the input; a type outside the table raises a bare KeyError carrying
the offending type. -/
def to_python (strptime : List Char → Option PyDateTime) : DTInput → Except PyErr (Option PyDateTime)
  | .pyNone => .ok none
  | .str s => format_string_date strptime s
  | .datetime d => .ok (some d)
  | .date d => .ok (some ⟨d.year, d.month, d.day, 0, 0, 0⟩)
  | .other tyName => .error (.keyError tyName)

end DateTimeField

/-- Modelled from the spec: the external Record collaborator (the
container type aggregating named fields) is not part of src/.  Per the
spec it exposes its type name, its aggregate character width, blank
construction, construction from a field mapping, decode of a width-exact
text blob, and encode to text. -/
structure RecordModel (ρ κ : Type) where
  name : List Char
  width : Nat
  blank : ρ
  fromRecord : List Char → ρ
  fromKwargs : κ → ρ
  toRecord : ρ → List Char

/-- The shapes of runtime values FragmentField.to_python can receive. -/
inductive FragInput (ρ κ : Type) where
  | pyNone
  | str (s : List Char)
  | inst (r : ρ)
  | dict (kw : κ)
  | other (tyName : List Char)

namespace FragmentField

/-- The message of the TypeError raised by FragmentField.to_python on an
unmatched input shape. -/
def fragTypeErrMsg (name : List Char) : List Char :=
  "Redefined field must be a string or ".data ++ name ++ " instance.".data

/-- FragmentField.to_python: dispatch on the shape of the input; the
KeyError of an unmatched shape is caught and re-raised as a TypeError
naming the expected record type. -/
def to_python (R : RecordModel ρ κ) : FragInput ρ κ → Except PyErr ρ
  | .pyNone => .ok R.blank
  | .str s => .ok (R.fromRecord s)
  | .inst r => .ok r
  | .dict kw => .ok (R.fromKwargs kw)
  | .other _ => .error (.typeError (fragTypeErrMsg R.name))

/-- FragmentField.to_record: None encodes a fresh blank record,
otherwise the value encodes itself. -/
def to_record (R : RecordModel ρ κ) (val : Option ρ) : List Char :=
  match val with
  | none => R.toRecord R.blank
  | some r => R.toRecord r

end FragmentField

/-- One element of a sequence passed to ListField.to_python. -/
inductive ListElem (ρ κ : Type) where
  | dict (kw : κ)
  | inst (r : ρ)
  | other (tyName : List Char)

/-- The shapes of runtime values ListField.to_python can receive: text,
a list or tuple of elements, or any other type. -/
inductive ListInput (ρ κ : Type) where
  | str (s : List Char)
  | seq (elems : List (ListElem ρ κ))
  | other (tyName : List Char)

/-- The message of the TypeError Python raises when ListField.to_python
calls the result of a failed dict lookup: value_dict.get returns None
and None is not callable.  The record type name does not appear. -/
def noneNotCallableMsg : List Char := "'NoneType' object is not callable".data

/-- True exactly on dict-shaped sequence elements. -/
def isDictElem : ListElem ρ κ → Bool
  | .dict _ => true
  | _ => false

/-- True exactly on nested-record-instance sequence elements. -/
def isInstElem : ListElem ρ κ → Bool
  | .inst _ => true
  | _ => false

/-- True exactly on sequence elements of any other type. -/
def isOtherElem : ListElem ρ κ → Bool
  | .other _ => true
  | _ => false

/-- Build a record from a dict-shaped element (only reached when every
element is a dict). -/
def dictToRecord (R : RecordModel ρ κ) : ListElem ρ κ → ρ
  | .dict kw => R.fromKwargs kw
  | _ => R.blank

/-- Extract the record of an instance-shaped element (only reached when
every element is an instance). -/
def instToRecord (R : RecordModel ρ κ) : ListElem ρ κ → ρ
  | .inst r => r
  | _ => R.blank

namespace ListField

/-- The message of the TypeError raised by ListField._sequence_to_python
when some element is not an instance of the record type. -/
def listTypeErrMsg (name : List Char) : List Char :=
  "List field must contain instances of '".data ++ name ++ "'.".data

/-- ListField._get_records_from_string: slice the text into `length`
consecutive windows of the nested record width and decode each. -/
def get_records_from_string (R : RecordModel ρ κ) : Nat → List Char → List ρ
  | 0, _ => []
  | n + 1, v => R.fromRecord (v.take R.width) :: get_records_from_string R n (v.drop R.width)

/-- ListField._sequence_to_python: if every element is a dict, build one
record per mapping; otherwise every element must already be a record
instance, else a TypeError naming the record type. -/
def sequence_to_python (R : RecordModel ρ κ) (val : List (ListElem ρ κ)) :
    Except PyErr (List ρ) :=
  if val.all isDictElem then .ok (val.map (dictToRecord R))
  else if val.all isInstElem then .ok (val.map (instToRecord R))
  else .error (.typeError (listTypeErrMsg R.name))

/-- ListField.to_python: dispatch on the runtime type of the input via
value_dict.get; a type outside the table makes Python call None. -/
def to_python (R : RecordModel ρ κ) (length : Nat) : ListInput ρ κ → Except PyErr (List ρ)
  | .str s => .ok (get_records_from_string R length s)
  | .seq elems => sequence_to_python R elems
  | .other _ => .error (.typeError noneNotCallableMsg)

/-- The while loop of ListField.to_record: append fresh blank records to
the caller's own list until it holds `length` elements. -/
def pad_records (blank : ρ) (length : Nat) (val : List ρ) : List ρ :=
  if _h : val.length < length then pad_records blank length (val ++ [blank]) else val
termination_by length - val.length
decreasing_by simp only [List.length_append, List.length_cons, List.length_nil]; omega

/-- ListField.to_record: pad the received list in place with blank
records, then concatenate each element's own encoding.  The first
component is the caller's list object after the call. -/
def to_record (R : RecordModel ρ κ) (length : Nat) (val : List ρ) : List ρ × List Char :=
  (pad_records R.blank length val,
    ((pad_records R.blank length val).map (fun v => R.toRecord v)).flatten)

/-- The message of the FieldLengthError raised by
ListField._check_record_length. -/
def listLengthErrMsg (attname : List Char) (cnt : Nat) (length : Nat) : List Char :=
  "'".data ++ attname ++ "' contains ".data ++ natRepr cnt
    ++ " records but can only have ".data ++ natRepr length ++ ".".data

/-- ListField._check_record_length: fails when the encoded text exceeds
length * recordWidth characters, reporting the implied whole-record
count (floor division, as Python 2 int division) versus the allowed
count. -/
def check_record_length (recordWidth : Nat) (attname : List Char) (length : Nat)
    (record_val : List Char) : Except PyErr Unit :=
  if length * recordWidth < record_val.length then
    .error (.fieldLengthError
      (listLengthErrMsg attname (record_val.length / recordWidth) length))
  else .ok ()

/-- ListField.get_default ignores any configured default and returns a
fresh empty list. -/
def get_default (_d : Unit) : List ρ := []

end ListField

/-- The default configured on a field: absent, a static value, or a
zero-argument factory. -/
inductive DefaultSpec (β : Type) where
  | notProvided
  | static (v : β)
  | factory (f : Unit → β)

namespace FixedWidthField

/-- FixedWidthField.has_default. -/
def has_default : DefaultSpec β → Bool
  | .notProvided => false
  | _ => true

/-- FixedWidthField.get_default: None when no default is configured, a
fresh invocation of a callable default, otherwise the static default
unchanged.  `pyNone` is the kind's absent value. -/
def get_default (pyNone : β) : DefaultSpec β → β
  | .notProvided => pyNone
  | .static v => v
  | .factory f => f ()

/-- FixedWidthField.__get__: the stored decoded value when the instance
attribute was set, else get_default(); the store is not written. -/
def field_get (pyNone : β) (d : DefaultSpec β) (store : Option β) : β :=
  match store with
  | some v => v
  | none => get_default pyNone d

/-- FixedWidthField.__set__: every raw value is routed through to_python
before storage. -/
def field_set (to_python : ρ → Except PyErr β) (_store : Option β) (raw : ρ) :
    Except PyErr (Option β) :=
  match to_python raw with
  | .ok v => .ok (some v)
  | .error e => .error e

end FixedWidthField

/-- Boolean test that `pre` is an initial run of `l`. -/
def leadsWith : List Char → List Char → Bool
  | [], _ => true
  | _ :: _, [] => false
  | a :: as, b :: bs => a == b && leadsWith as bs

/-- Boolean substring test, used to state that an error message carries
a given piece of text. -/
def listContains : List Char → List Char → Bool
  | needle, [] => needle.isEmpty
  | needle, c :: t => leadsWith needle (c :: t) || listContains needle t

/-- A concrete two-character nested record used to instantiate the
composite-field theorems. -/
def TwoRec : RecordModel (Char × Char) Unit where
  name := "Two".data
  width := 2
  blank := (' ', ' ')
  fromRecord := fun s => (s.getD 0 ' ', s.getD 1 ' ')
  fromKwargs := fun _ => (' ', ' ')
  toRecord := fun r => [r.1, r.2]

/-- A concrete nested record named Phone used to instantiate the
dispatch-error theorems. -/
def PhoneRec : RecordModel Unit Unit where
  name := "Phone".data
  width := 10
  blank := ()
  fromRecord := fun _ => ()
  fromKwargs := fun _ => ()
  toRecord := fun _ => List.replicate 10 ' '

/-- A strptime model that rejects every input, used to instantiate the
DateTimeField dispatch theorem. -/
def noStrptime : List Char → Option PyDateTime := fun _ => none

theorem dropWhile_space_replicate (k : Nat) (y : List Char) :
    (List.replicate k ' ' ++ y).dropWhile pyIsSpace = y.dropWhile pyIsSpace := by
  induction k with
  | zero => simp
  | succ k ih =>
    rw [List.replicate_succ, List.cons_append, List.dropWhile_cons_of_pos (by decide), ih]

theorem rstrip_append_spaces (s : List Char) (k : Nat) :
    rstripChars (s ++ List.replicate k ' ') = rstripChars s := by
  unfold rstripChars
  rw [List.reverse_append, List.reverse_replicate, dropWhile_space_replicate]

theorem lstrip_eq_self {t : List Char} (h : ∀ c ∈ t, pyIsSpace c = false) :
    lstripChars t = t := by
  unfold lstripChars
  cases t with
  | nil => rfl
  | cons c r =>
    exact List.dropWhile_cons_of_neg (by simp [h c (List.mem_cons_self c r)])

theorem rstrip_eq_self {t : List Char} (h : ∀ c ∈ t, pyIsSpace c = false) :
    rstripChars t = t := by
  unfold rstripChars
  have hrev : t.reverse.dropWhile pyIsSpace = t.reverse := by
    cases hr : t.reverse with
    | nil => rfl
    | cons c r =>
      have hc : c ∈ t := by
        have : c ∈ t.reverse := by rw [hr]; exact List.mem_cons_self c r
        simpa using this
      exact List.dropWhile_cons_of_neg (by simp [h c hc])
  rw [hrev, List.reverse_reverse]

theorem strip_eq_self {t : List Char} (h : ∀ c ∈ t, pyIsSpace c = false) :
    stripChars t = t := by
  unfold stripChars
  rw [rstrip_eq_self h, lstrip_eq_self h]

theorem isDigit_not_space {c : Char} (h : c.isDigit = true) : pyIsSpace c = false := by
  cases hs : pyIsSpace c with
  | false => rfl
  | true =>
    exfalso
    simp only [pyIsSpace, Bool.or_eq_true, beq_iff_eq] at hs
    rcases hs with ((((h1 | h1) | h1) | h1) | h1) | h1 <;>
      (subst h1; exact absurd h (by decide))

theorem isDigit_ne_dash {c : Char} (h : c.isDigit = true) : ¬ c = '-' := by
  intro hc; subst hc; exact absurd h (by decide)

theorem isDigit_ne_plus {c : Char} (h : c.isDigit = true) : ¬ c = '+' := by
  intro hc; subst hc; exact absurd h (by decide)

theorem charDigit_digitChar : ∀ d, d < 10 → charDigit (Nat.digitChar d) = some d := by decide

theorem digitChar_isDigit : ∀ d, d < 10 → (Nat.digitChar d).isDigit = true := by decide

theorem natRepr_ne_nil (n : Nat) : natRepr n ≠ [] := by
  unfold natRepr
  by_cases h : n = 0
  · rw [if_pos h]; simp
  · rw [if_neg h]
    simp [List.map_eq_nil_iff, Nat.digits_ne_nil_iff_ne_zero.mpr h]

theorem natRepr_all_digit (n : Nat) : ∀ c ∈ natRepr n, c.isDigit = true := by
  intro c hc
  unfold natRepr at hc
  by_cases h : n = 0
  · rw [if_pos h] at hc
    simp only [List.mem_singleton] at hc
    subst hc; decide
  · rw [if_neg h] at hc
    simp only [List.mem_map, List.mem_reverse] at hc
    obtain ⟨d, hd, rfl⟩ := hc
    exact digitChar_isDigit d (Nat.digits_lt_base (by norm_num) hd)

theorem parseDigitsAux_map (M : List Nat) (h : ∀ d ∈ M, d < 10) (acc : Nat) :
    parseDigitsAux acc (M.map Nat.digitChar) = some (M.foldl (fun a d => a * 10 + d) acc) := by
  induction M generalizing acc with
  | nil => rfl
  | cons d M ih =>
    have hd : d < 10 := h d (List.mem_cons_self d M)
    simp only [List.map_cons, parseDigitsAux, charDigit_digitChar d hd, List.foldl_cons]
    exact ih (fun x hx => h x (List.mem_cons_of_mem d hx)) (acc * 10 + d)

theorem foldl_digits_reverse (n : Nat) :
    ((Nat.digits 10 n).reverse).foldl (fun a d => a * 10 + d) 0 = n := by
  rw [List.foldl_reverse]
  have h : ∀ L : List Nat, L.foldr (fun x y => y * 10 + x) 0 = Nat.ofDigits 10 L := by
    intro L
    induction L with
    | nil => simp [Nat.ofDigits]
    | cons d L ih => rw [List.foldr_cons, ih, Nat.ofDigits_cons]; ring
  rw [h]
  exact_mod_cast Nat.ofDigits_digits 10 n

theorem parseDigitsAux_natRepr (n : Nat) : parseDigitsAux 0 (natRepr n) = some n := by
  unfold natRepr
  by_cases h : n = 0
  · rw [if_pos h, h]; rfl
  · rw [if_neg h,
      parseDigitsAux_map _ (fun d hd => Nat.digits_lt_base (by norm_num) (List.mem_reverse.mp hd)) 0,
      foldl_digits_reverse]

theorem parseDigitsAux_zeros (k : Nat) (L : List Char) :
    parseDigitsAux 0 (List.replicate k '0' ++ L) = parseDigitsAux 0 L := by
  induction k with
  | zero => rfl
  | succ k ih =>
    rw [List.replicate_succ, List.cons_append]
    have h0 : charDigit '0' = some 0 := by decide
    simp only [parseDigitsAux, h0]
    exact ih

theorem parseDigits_zeros_natRepr (k n : Nat) :
    parseDigits (List.replicate k '0' ++ natRepr n) = some n := by
  have hne : List.replicate k '0' ++ natRepr n ≠ [] := by
    simp [natRepr_ne_nil n]
  cases hc : List.replicate k '0' ++ natRepr n with
  | nil => exact absurd hc hne
  | cons c cs =>
    show parseDigitsAux 0 (c :: cs) = some n
    rw [← hc, parseDigitsAux_zeros, parseDigitsAux_natRepr]

theorem pad_all_digit (k n : Nat) :
    ∀ c ∈ List.replicate k '0' ++ natRepr n, c.isDigit = true := by
  intro c hc
  rcases List.mem_append.mp hc with h | h
  · rw [List.eq_of_mem_replicate h]; decide
  · exact natRepr_all_digit n c h

theorem pyParseInt_zeros_natRepr (k n : Nat) :
    pyParseInt (List.replicate k '0' ++ natRepr n) = some (n : Int) := by
  have hall := pad_all_digit k n
  have hns : ∀ c ∈ List.replicate k '0' ++ natRepr n, pyIsSpace c = false :=
    fun c hc => isDigit_not_space (hall c hc)
  unfold pyParseInt
  rw [strip_eq_self hns]
  cases hc : List.replicate k '0' ++ natRepr n with
  | nil => exact absurd hc (by simp [natRepr_ne_nil n])
  | cons c cs =>
    have hcd : c.isDigit = true := by
      apply hall; rw [hc]; exact List.mem_cons_self c cs
    show pyParseIntCore (c :: cs) = some (n : Int)
    simp only [pyParseIntCore]
    rw [if_neg (isDigit_ne_dash hcd), if_neg (isDigit_ne_plus hcd), ← hc,
      parseDigits_zeros_natRepr]
    rfl

theorem pad_not_blank (k n : Nat) :
    is_blank_string (List.replicate k '0' ++ natRepr n) = false := by
  have hns : ∀ c ∈ List.replicate k '0' ++ natRepr n, pyIsSpace c = false :=
    fun c hc => isDigit_not_space (pad_all_digit k n c hc)
  unfold is_blank_string
  rw [strip_eq_self hns]
  simp [natRepr_ne_nil n]

theorem leadsWith_append (n b : List Char) : leadsWith n (n ++ b) = true := by
  induction n with
  | nil => rfl
  | cons c t ih => simp [leadsWith, ih]

theorem listContains_here (n b : List Char) : listContains n (n ++ b) = true := by
  cases hn : n with
  | nil =>
    cases b with
    | nil => rfl
    | cons c t => rfl
  | cons c t =>
    have hl : leadsWith (c :: t) (c :: (t ++ b)) = true := by
      simpa using leadsWith_append (c :: t) b
    simp only [List.cons_append, listContains, List.append_eq, hl, Bool.true_or]

theorem listContains_append_left (n h a : List Char) (hc : listContains n h = true) :
    listContains n (a ++ h) = true := by
  induction a with
  | nil => exact hc
  | cons c t ih =>
    simp only [List.cons_append, listContains, List.append_eq, ih, Bool.or_true]

theorem listContains_mid (a n b : List Char) : listContains n (a ++ n ++ b) = true := by
  rw [List.append_assoc]
  exact listContains_append_left n (n ++ b) a (listContains_here n b)

theorem pad_records_eq (blank : ρ) (N : Nat) (val : List ρ) :
    ListField.pad_records blank N val = val ++ List.replicate (N - val.length) blank := by
  have main : ∀ (k : Nat) (v : List ρ), N - v.length = k →
      ListField.pad_records blank N v = v ++ List.replicate (N - v.length) blank := by
    intro k
    induction k with
    | zero =>
      intro v hk
      rw [ListField.pad_records, dif_neg (by omega), hk]
      simp
    | succ k ih =>
      intro v hk
      have hlt : v.length < N := by omega
      rw [ListField.pad_records, dif_pos hlt,
        ih (v ++ [blank]) (by simp only [List.length_append, List.length_cons, List.length_nil]; omega)]
      simp only [List.length_append, List.length_cons, List.length_nil]
      rw [List.append_assoc, List.singleton_append]
      have h1 : N - v.length = (N - (v.length + (0 + 1))) + 1 := by omega
      rw [h1, List.replicate_succ]
  exact main (N - val.length) val rfl

theorem pad_records_length (blank : ρ) (N : Nat) (val : List ρ) (h : val.length ≤ N) :
    (ListField.pad_records blank N val).length = N := by
  rw [pad_records_eq]
  simp only [List.length_append, List.length_replicate]
  omega

theorem get_records_length (R : RecordModel ρ κ) (N : Nat) (s : List Char) :
    (ListField.get_records_from_string R N s).length = N := by
  induction N generalizing s with
  | zero => rfl
  | succ N ih => simp [ListField.get_records_from_string, ih]

theorem get_records_getElem (R : RecordModel ρ κ) (N i : Nat) (s : List Char) (h : i < N) :
    (ListField.get_records_from_string R N s)[i]? =
      some (R.fromRecord ((s.drop (i * R.width)).take R.width)) := by
  induction N generalizing s i with
  | zero => omega
  | succ N ih =>
    cases i with
    | zero =>
      simp [ListField.get_records_from_string]
    | succ i =>
      simp only [ListField.get_records_from_string, List.getElem?_cons_succ]
      rw [ih i (s.drop R.width) (by omega), List.drop_drop]
      have harith : R.width + i * R.width = (i + 1) * R.width := by ring
      rw [harith]

theorem flatten_map_length (f : ρ → List Char) (W : Nat) (hf : ∀ r, (f r).length = W) :
    ∀ l : List ρ, ((l.map f).flatten).length = l.length * W := by
  intro l
  induction l with
  | nil => simp
  | cons a l ih =>
    simp only [List.map_cons, List.flatten_cons, List.length_append, ih, hf a,
      List.length_cons]
    ring

/-- C1: with auto_truncate unset, get_record_value raises a
FieldLengthError naming the field, the offending encoded value and the
allowed width exactly when the encoded value is longer than the declared
width, and otherwise returns the encoded value unchanged (under-length
accepted); with auto_truncate set it never raises and returns the first
`length` characters of the encoded value.  This is the base-class check
shared by every field except ListField, whose override is treated with
claim C5. -/
theorem c1_encode_validated (toRec : α → List Char) (attname : List Char)
    (length : Nat) (val : α) :
    (length < (toRec val).length →
      get_record_value toRec (FixedWidthField.check_record_length attname length) false length val
        = .error (.fieldLengthError (FixedWidthField.lengthErrMsg attname (toRec val) length)))
    ∧ ((toRec val).length ≤ length →
      get_record_value toRec (FixedWidthField.check_record_length attname length) false length val
        = .ok (toRec val))
    ∧ get_record_value toRec (FixedWidthField.check_record_length attname length) true length val
        = .ok ((toRec val).take length)
    ∧ listContains attname (FixedWidthField.lengthErrMsg attname (toRec val) length) = true
    ∧ listContains (toRec val) (FixedWidthField.lengthErrMsg attname (toRec val) length) = true
    ∧ listContains (natRepr length) (FixedWidthField.lengthErrMsg attname (toRec val) length)
        = true := by
  refine ⟨?_, ?_, ?_, ?_, ?_, ?_⟩
  · intro h
    simp only [get_record_value, FixedWidthField.check_record_length, if_pos h, if_false,
      Bool.false_eq_true]
  · intro h
    simp only [get_record_value, FixedWidthField.check_record_length, if_neg (by omega : ¬ length < (toRec val).length),
      if_false, Bool.false_eq_true]
  · have hle : ¬ length < ((toRec val).take length).length := by
      simp only [List.length_take]
      omega
    simp [get_record_value, FixedWidthField.check_record_length, hle]
  · have h := listContains_mid "'".data attname
      ("' value '".data ++ (toRec val) ++ "' is longer than ".data ++ natRepr length
        ++ " chars.".data)
    unfold FixedWidthField.lengthErrMsg
    simpa [List.append_assoc] using h
  · have h := listContains_mid ("'".data ++ attname ++ "' value '".data) (toRec val)
      ("' is longer than ".data ++ natRepr length ++ " chars.".data)
    unfold FixedWidthField.lengthErrMsg
    simpa [List.append_assoc] using h
  · have h := listContains_mid
      ("'".data ++ attname ++ "' value '".data ++ (toRec val) ++ "' is longer than ".data)
      (natRepr length) (" chars.".data)
    unfold FixedWidthField.lengthErrMsg
    simpa [List.append_assoc] using h

theorem c1_witness :
    get_record_value (FixedWidthField.to_record 5)
        (FixedWidthField.check_record_length "fld".data 5) false 5 (some "toolongvalue".data)
      = .error (.fieldLengthError
        (FixedWidthField.lengthErrMsg "fld".data
          (FixedWidthField.to_record 5 (some "toolongvalue".data)) 5))
    ∧ get_record_value (FixedWidthField.to_record 5)
        (FixedWidthField.check_record_length "fld".data 5) true 5 (some "toolongvalue".data)
      = .ok "toolo".data
    ∧ ("toolo".data).length = 5 := by
  have h := c1_encode_validated (FixedWidthField.to_record 5) "fld".data 5
    (some "toolongvalue".data)
  exact ⟨h.1 (by decide), h.2.2.1, by decide⟩

/-- C5: the ListField length check raises a FieldLengthError exactly
when the encoded text is longer than repeat count times nested record
width, and the message reports the implied whole-record count (floor
division of the length by the nested width) versus the allowed count. -/
theorem c5_list_length_check (recordWidth : Nat) (attname : List Char) (N : Nat)
    (record_val : List Char) (_hW : 0 < recordWidth) :
    (ListField.check_record_length recordWidth attname N record_val
        = .error (.fieldLengthError
          (ListField.listLengthErrMsg attname (record_val.length / recordWidth) N))
      ↔ N * recordWidth < record_val.length)
    ∧ (record_val.length ≤ N * recordWidth →
        ListField.check_record_length recordWidth attname N record_val = .ok ())
    ∧ listContains (natRepr (record_val.length / recordWidth))
        (ListField.listLengthErrMsg attname (record_val.length / recordWidth) N) = true
    ∧ listContains (natRepr N)
        (ListField.listLengthErrMsg attname (record_val.length / recordWidth) N) = true := by
  refine ⟨⟨?_, ?_⟩, ?_, ?_, ?_⟩
  · intro h
    by_cases hc : N * recordWidth < record_val.length
    · exact hc
    · exfalso
      unfold ListField.check_record_length at h
      rw [if_neg hc] at h
      simp at h
  · intro hc
    unfold ListField.check_record_length
    rw [if_pos hc]
  · intro hc
    unfold ListField.check_record_length
    rw [if_neg (by omega)]
  · have h := listContains_mid ("'".data ++ attname ++ "' contains ".data)
      (natRepr (record_val.length / recordWidth))
      (" records but can only have ".data ++ natRepr N ++ ".".data)
    unfold ListField.listLengthErrMsg
    simpa [List.append_assoc] using h
  · have h := listContains_mid
      ("'".data ++ attname ++ "' contains ".data ++ natRepr (record_val.length / recordWidth)
        ++ " records but can only have ".data)
      (natRepr N) (".".data)
    unfold ListField.listLengthErrMsg
    simpa [List.append_assoc] using h

theorem c5_witness :
    ListField.check_record_length 2 "kids".data 3 (List.replicate 8 'x')
      = .error (.fieldLengthError (ListField.listLengthErrMsg "kids".data 4 3))
    ∧ ListField.check_record_length 2 "kids".data 3 (List.replicate 6 'x') = .ok () := by
  have h := c5_list_length_check 2 "kids".data 3 (List.replicate 8 'x') (by decide)
  have h2 := c5_list_length_check 2 "kids".data 3 (List.replicate 6 'x') (by decide)
  exact ⟨h.1.mpr (by decide), h2.2.1 (by decide)⟩

/-- C6: PostalCodeField has fixed width 9 and its encoder maps None or
blank text to nine spaces, a value parseable as an integer to its text
zero-filled on the right, and any other value to the text space-padded
on the right; in particular "12345" encodes to "123450000" and "ABC" to
"ABC      ". -/
theorem c6_postal_encode :
    PostalCodeField.width = 9
    ∧ PostalCodeField.to_record none = List.replicate 9 ' '
    ∧ (∀ s, is_blank_string s = true →
        PostalCodeField.to_record (some s) = List.replicate 9 ' ')
    ∧ (∀ s (n : Int), is_blank_string s = false → pyParseInt s = some n →
        PostalCodeField.to_record (some s) = s ++ List.replicate (9 - s.length) '0')
    ∧ (∀ s, is_blank_string s = false → pyParseInt s = none →
        PostalCodeField.to_record (some s) = s ++ List.replicate (9 - s.length) ' ')
    ∧ PostalCodeField.to_record (some "12345".data) = "123450000".data
    ∧ PostalCodeField.to_record (some "ABC".data) = "ABC      ".data := by
  refine ⟨rfl, by decide, ?_, ?_, ?_, by decide, by decide⟩
  · intro s hb
    simp only [PostalCodeField.to_record, hb, if_true]
    decide
  · intro s n hb hp
    simp only [PostalCodeField.to_record, hb, Bool.false_eq_true, if_false, hp, int_padding,
      if_true, PostalCodeField.width]
  · intro s hb hp
    simp only [PostalCodeField.to_record, hb, Bool.false_eq_true, if_false, hp, str_padding,
      PostalCodeField.width]

theorem c6_witness :
    PostalCodeField.to_record (some "12345".data) = "12345".data ++ List.replicate 4 '0'
    ∧ PostalCodeField.to_record (some "   ".data) = List.replicate 9 ' ' := by
  have h := c6_postal_encode
  exact ⟨h.2.2.2.1 "12345".data 12345 (by decide) (by decide),
    h.2.2.1 "   ".data (by decide)⟩

/-- C7: IntegerField decodes None and every blank string to the absent
value, parses any other text as an integer and fails with a ValueError
on non-numeric text; encoding the absent value yields the all-zeros
string of exactly the field width (widths are positive per the data
model). -/
theorem c7_integer_field :
    IntegerField.to_python none = .ok none
    ∧ (∀ s, is_blank_string s = true → IntegerField.to_python (some s) = .ok none)
    ∧ (∀ s (n : Int), is_blank_string s = false → pyParseInt s = some n →
        IntegerField.to_python (some s) = .ok (some n))
    ∧ (∀ s, is_blank_string s = false → pyParseInt s = none →
        IntegerField.to_python (some s)
          = .error (.valueError ("invalid literal for int(): ".data ++ s)))
    ∧ (∀ length, 1 ≤ length →
        IntegerField.to_record length none = List.replicate length '0'
        ∧ (IntegerField.to_record length none).length = length) := by
  refine ⟨rfl, ?_, ?_, ?_, ?_⟩
  · intro s hb
    simp only [IntegerField.to_python, hb, if_true]
  · intro s n hb hp
    simp only [IntegerField.to_python, hb, Bool.false_eq_true, if_false, hp]
  · intro s hb hp
    simp only [IntegerField.to_python, hb, Bool.false_eq_true, if_false, hp]
  · intro length hlen
    have h0 : pyIntRepr ((none : Option Int).getD 0) = ['0'] := rfl
    have he : IntegerField.to_record length none = List.replicate length '0' := by
      simp only [IntegerField.to_record, h0, int_padding, Bool.false_eq_true, if_false]
      rw [← List.replicate_succ']
      have harith : length - List.length ['0'] + 1 = length := by
        simp only [List.length_cons, List.length_nil]
        omega
      rw [harith]
    exact ⟨he, by rw [he]; simp⟩

/-- C2 (amended): decode after encode recovers the value for String
fields up to trailing-whitespace stripping, for NewLine fields on
non-empty values, for Integer fields on nonnegative values, and for
PostalCode fields on values not parseable as integers.  PostalCode's
trailing zero-fill of numeric values, Integer's encoding of the absent
value as zero and of negative values, and date formatting beyond the
configured format remain lossy. -/
theorem c2_round_trip :
    (∀ (length : Nat) (s : List Char),
        StringField.to_python (some (StringField.to_record length (some s)))
          = some (rstripChars s))
    ∧ (∀ s : List Char, s ≠ [] →
        NewLineField.to_python (some (NewLineField.to_record (some s))) = some s)
    ∧ (∀ (length : Nat) (n : Int), 0 ≤ n →
        IntegerField.to_python (some (IntegerField.to_record length (some n)))
          = .ok (some n))
    ∧ (∀ s : List Char, is_blank_string s = false → pyParseInt s = none →
        PostalCodeField.to_python (some (PostalCodeField.to_record (some s)))
          = some (rstripChars s)) := by
  refine ⟨?_, ?_, ?_, ?_⟩
  · intro length s
    simp only [StringField.to_python, StringField.to_record, FixedWidthField.to_python,
      FixedWidthField.to_record, Option.getD_some, str_padding, rstrip_append_spaces]
  · intro s hs
    have hlen : 1 - s.length = 0 := by
      cases s with
      | nil => exact absurd rfl hs
      | cons c t => simp
    simp only [NewLineField.to_python, NewLineField.to_record, NewLineField.width,
      FixedWidthField.to_record, Option.getD_some, str_padding, hlen, List.replicate_zero,
      List.append_nil]
  · intro length n hn
    have hrepr : pyIntRepr ((some n).getD 0) = natRepr n.toNat := by
      simp only [Option.getD_some, pyIntRepr, if_neg (by omega : ¬ n < 0)]
    simp only [IntegerField.to_record, hrepr, int_padding, Bool.false_eq_true, if_false]
    simp only [IntegerField.to_python, pad_not_blank, Bool.false_eq_true, if_false,
      pyParseInt_zeros_natRepr]
    rw [Int.toNat_of_nonneg hn]
  · intro s hb hp
    simp only [PostalCodeField.to_python, PostalCodeField.to_record, hb, Bool.false_eq_true,
      if_false, hp, str_padding, PostalCodeField.width, FixedWidthField.to_python,
      rstrip_append_spaces]

theorem c2_counterexample :
    PostalCodeField.to_python (some (PostalCodeField.to_record (some "12345".data)))
      = some "123450000".data
    ∧ rstripChars "123450000".data ≠ rstripChars "12345".data := by
  exact ⟨by decide, by decide⟩

theorem c2_witness :
    StringField.to_python (some (StringField.to_record 5 (some "ab ".data))) = some "ab".data
    ∧ NewLineField.to_python (some (NewLineField.to_record (some ['\n']))) = some ['\n']
    ∧ IntegerField.to_python (some (IntegerField.to_record 4 (some 42))) = .ok (some 42)
    ∧ PostalCodeField.to_python (some (PostalCodeField.to_record (some "ABC".data)))
        = some "ABC".data := by
  have h := c2_round_trip
  exact ⟨h.1 5 "ab ".data, h.2.1 ['\n'] (by decide), h.2.2.1 4 42 (by decide),
    h.2.2.2 "ABC".data (by decide) (by decide)⟩

/-- C3: a List field over a nested record of width W with repeat count N
pads a short list with fresh blank records to N elements and returns the
concatenation of the N encodings (N * W characters when the nested
encoder is width-exact), and decoding slices the text into N consecutive
W-character windows decoded in order. -/
theorem c3_list_encode_decode (R : RecordModel ρ κ) (N : Nat) (val : List ρ) (s : List Char)
    (hW : ∀ r, (R.toRecord r).length = R.width) (hk : val.length ≤ N) :
    (ListField.to_record R N val).2
      = ((val ++ List.replicate (N - val.length) R.blank).map (fun v => R.toRecord v)).flatten
    ∧ (ListField.to_record R N val).2.length = N * R.width
    ∧ (ListField.get_records_from_string R N s).length = N
    ∧ (∀ i, i < N → (ListField.get_records_from_string R N s)[i]?
        = some (R.fromRecord ((s.drop (i * R.width)).take R.width))) := by
  refine ⟨?_, ?_, get_records_length R N s, fun i hi => get_records_getElem R N i s hi⟩
  · simp only [ListField.to_record, pad_records_eq]
  · simp only [ListField.to_record]
    rw [flatten_map_length (fun v => R.toRecord v) R.width hW,
      pad_records_length R.blank N val hk]

theorem c3_witness :
    (ListField.to_record TwoRec 3 [('a', 'b')]).2.length = 6
    ∧ (ListField.get_records_from_string TwoRec 3 "ab    ".data).length = 3 := by
  have h := c3_list_encode_decode TwoRec 3 [('a', 'b')] "ab    ".data (fun r => rfl)
    (by decide)
  exact ⟨h.2.1, h.2.2.1⟩

/-- C9: ListField.to_record pads the received list object itself: after
the call the caller's list (the first component of the modelled result)
holds exactly the repeat count of elements, the appended ones being
fresh blank records. -/
theorem c9_list_to_record_mutation (R : RecordModel ρ κ) (N : Nat) (val : List ρ)
    (h : val.length < N) :
    (ListField.to_record R N val).1 = val ++ List.replicate (N - val.length) R.blank
    ∧ (ListField.to_record R N val).1.length = N := by
  constructor
  · exact pad_records_eq R.blank N val
  · exact pad_records_length R.blank N val (by omega)

theorem c9_witness :
    (ListField.to_record TwoRec 3 [('a', 'b')]).1 = [('a', 'b'), (' ', ' '), (' ', ' ')]
    ∧ (ListField.to_record TwoRec 3 [('a', 'b')]).1.length = 3 := by
  have h := c9_list_to_record_mutation TwoRec 3 [('a', 'b')] (by decide)
  exact ⟨h.1, h.2⟩

/-- C4 (amended): FragmentField.to_python fails on an unmatched input
shape with a TypeError naming the expected record type, and
ListField._sequence_to_python fails on a sequence holding an element of
an unmatched shape with a TypeError naming the record type; but
ListField.to_python on a non-text, non-sequence input fails with the
bare not-callable TypeError, which does not carry the record type
name. -/
theorem c4_dispatch (R : RecordModel ρ κ) :
    FragmentField.to_python R FragInput.pyNone = .ok R.blank
    ∧ (∀ s, FragmentField.to_python R (FragInput.str s) = .ok (R.fromRecord s))
    ∧ (∀ r, FragmentField.to_python R (FragInput.inst r) = .ok r)
    ∧ (∀ kw, FragmentField.to_python R (FragInput.dict kw) = .ok (R.fromKwargs kw))
    ∧ (∀ ty, FragmentField.to_python R (FragInput.other ty)
        = .error (.typeError (FragmentField.fragTypeErrMsg R.name)))
    ∧ listContains R.name (FragmentField.fragTypeErrMsg R.name) = true
    ∧ (∀ elems, (∃ e ∈ elems, isOtherElem e = true) →
        ListField.sequence_to_python R elems
          = .error (.typeError (ListField.listTypeErrMsg R.name)))
    ∧ listContains R.name (ListField.listTypeErrMsg R.name) = true
    ∧ (∀ (length : Nat) ty, ListField.to_python R length (ListInput.other ty)
        = .error (.typeError noneNotCallableMsg)) := by
  refine ⟨rfl, fun s => rfl, fun r => rfl, fun kw => rfl, fun ty => rfl, ?_, ?_, ?_,
    fun length ty => rfl⟩
  · have h := listContains_mid "Redefined field must be a string or ".data R.name
      " instance.".data
    unfold FragmentField.fragTypeErrMsg
    simpa [List.append_assoc] using h
  · intro elems hex
    obtain ⟨e, he, hother⟩ := hex
    have hd : elems.all isDictElem = false := by
      cases hall : elems.all isDictElem with
      | false => rfl
      | true =>
        have hm := List.all_eq_true.mp hall e he
        cases e <;> simp [isDictElem, isOtherElem] at hm hother
    have hi : elems.all isInstElem = false := by
      cases hall : elems.all isInstElem with
      | false => rfl
      | true =>
        have hm := List.all_eq_true.mp hall e he
        cases e <;> simp [isInstElem, isOtherElem] at hm hother
    simp only [ListField.sequence_to_python, hd, hi, Bool.false_eq_true, if_false]
  · have h := listContains_mid "List field must contain instances of '".data R.name "'.".data
    unfold ListField.listTypeErrMsg
    simpa [List.append_assoc] using h

theorem c4_counterexample :
    ListField.to_python PhoneRec 1 (ListInput.other "int".data)
      = .error (.typeError noneNotCallableMsg)
    ∧ listContains PhoneRec.name noneNotCallableMsg = false := by
  exact ⟨rfl, by decide⟩

theorem c4_witness :
    FragmentField.to_python PhoneRec (FragInput.other "int".data)
      = .error (.typeError (FragmentField.fragTypeErrMsg PhoneRec.name))
    ∧ listContains PhoneRec.name (FragmentField.fragTypeErrMsg PhoneRec.name) = true
    ∧ ListField.sequence_to_python PhoneRec [ListElem.other "int".data]
      = .error (.typeError (ListField.listTypeErrMsg PhoneRec.name)) := by
  have h := c4_dispatch PhoneRec
  exact ⟨h.2.2.2.2.1 "int".data, h.2.2.2.2.2.1,
    h.2.2.2.2.2.2.1 [ListElem.other "int".data]
      ⟨ListElem.other "int".data, List.mem_singleton.mpr rfl, rfl⟩⟩

/-- C8: reading a never-written field returns get_default — the static
default unchanged, a fresh factory invocation, an empty list for List
fields, or the absent value when no default is configured — and writing
always stores the to_python image of the raw value, so stored values are
in decoded form. -/
theorem c8_accessor (pyNone : β) (d : DefaultSpec β) (v : β) (f : Unit → β)
    (to_python : ρ → Except PyErr β) (store : Option β) (raw : ρ) (d2 : Unit) :
    FixedWidthField.field_get pyNone d none = FixedWidthField.get_default pyNone d
    ∧ FixedWidthField.get_default pyNone DefaultSpec.notProvided = pyNone
    ∧ FixedWidthField.get_default pyNone (DefaultSpec.static v) = v
    ∧ FixedWidthField.get_default pyNone (DefaultSpec.factory f) = f ()
    ∧ (ListField.get_default d2 : List β) = []
    ∧ (∀ b, FixedWidthField.field_set to_python store raw = .ok (some b)
        ↔ to_python raw = .ok b)
    ∧ (∀ s', FixedWidthField.field_set to_python store raw = .ok s' →
        ∃ b, s' = some b ∧ to_python raw = .ok b
          ∧ FixedWidthField.field_get pyNone d s' = b) := by
  refine ⟨rfl, rfl, rfl, rfl, rfl, ?_, ?_⟩
  · intro b
    constructor
    · intro h
      unfold FixedWidthField.field_set at h
      cases hp : to_python raw with
      | ok x =>
        rw [hp] at h
        simp only [Except.ok.injEq, Option.some.injEq] at h
        rw [h]
      | error e =>
        rw [hp] at h
        simp at h
    · intro h
      unfold FixedWidthField.field_set
      rw [h]
  · intro s' h
    unfold FixedWidthField.field_set at h
    cases hp : to_python raw with
    | ok x =>
      rw [hp] at h
      simp only [Except.ok.injEq] at h
      subst h
      exact ⟨x, rfl, rfl, rfl⟩
    | error e =>
      rw [hp] at h
      simp at h

theorem c8_witness :
    FixedWidthField.field_get (none : Option Nat)
        (DefaultSpec.factory (fun _ => some 7)) none = some 7
    ∧ (ListField.get_default () : List (Option Nat)) = []
    ∧ FixedWidthField.field_set (fun s : List Char => Except.ok (some s.length)) none
        "ab".data = .ok (some (some 2)) := by
  have h := c8_accessor (none : Option Nat) (DefaultSpec.factory (fun _ => some 7)) none
    (fun _ => some 7) (fun s : List Char => Except.ok (some s.length)) none "ab".data ()
  exact ⟨h.1.trans h.2.2.2.1, h.2.2.2.2.1, (h.2.2.2.2.2.1 (some 2)).mpr rfl⟩

/-- C10: DateTimeField.to_python handles exactly None, text, datetime
and date inputs; a value of any other type hits the type-keyed dispatch
table and fails with a bare KeyError, which is neither the ValueError of
a parse failure nor a descriptive TypeError. -/
theorem c10_datetime_dispatch (strptime : List Char → Option PyDateTime) (s : List Char)
    (d : PyDateTime) (dd : PyDate) (ty : List Char) :
    DateTimeField.to_python strptime DTInput.pyNone = .ok none
    ∧ ((stripChars s).isEmpty = true →
        DateTimeField.to_python strptime (DTInput.str s) = .ok none)
    ∧ (∀ dt, (stripChars s).isEmpty = false → strptime s = some dt →
        DateTimeField.to_python strptime (DTInput.str s) = .ok (some dt))
    ∧ ((stripChars s).isEmpty = false → strptime s = none →
        DateTimeField.to_python strptime (DTInput.str s)
          = .error (.valueError ("time data does not match format".data)))
    ∧ DateTimeField.to_python strptime (DTInput.datetime d) = .ok (some d)
    ∧ DateTimeField.to_python strptime (DTInput.date dd)
        = .ok (some ⟨dd.year, dd.month, dd.day, 0, 0, 0⟩)
    ∧ DateTimeField.to_python strptime (DTInput.other ty) = .error (.keyError ty)
    ∧ (∀ m, (PyErr.keyError ty) ≠ (PyErr.valueError m))
    ∧ (∀ m, (PyErr.keyError ty) ≠ (PyErr.typeError m)) := by
  refine ⟨rfl, ?_, ?_, ?_, rfl, rfl, rfl, fun m h => PyErr.noConfusion h,
    fun m h => PyErr.noConfusion h⟩
  · intro hb
    simp only [DateTimeField.to_python, DateTimeField.format_string_date, hb, if_true]
  · intro dt hb hp
    simp only [DateTimeField.to_python, DateTimeField.format_string_date, hb,
      Bool.false_eq_true, if_false, hp]
  · intro hb hp
    simp only [DateTimeField.to_python, DateTimeField.format_string_date, hb,
      Bool.false_eq_true, if_false, hp]

theorem c10_witness :
    DateTimeField.to_python noStrptime (DTInput.other "int".data)
      = .error (.keyError "int".data)
    ∧ DateTimeField.to_python noStrptime (DTInput.str "  ".data) = .ok none
    ∧ DateTimeField.to_python noStrptime (DTInput.str "x".data)
      = .error (.valueError ("time data does not match format".data)) := by
  have h := c10_datetime_dispatch noStrptime "x".data ⟨2020, 1, 1, 0, 0, 0⟩ ⟨2020, 1, 1⟩
    "int".data
  have h2 := c10_datetime_dispatch noStrptime "  ".data ⟨2020, 1, 1, 0, 0, 0⟩ ⟨2020, 1, 1⟩
    "int".data
  exact ⟨h.2.2.2.2.2.2.1, h2.2.1 (by decide), h.2.2.2.1 (by decide) rfl⟩

theorem c7_witness :
    IntegerField.to_python (some []) = .ok none
    ∧ IntegerField.to_python (some "007".data) = .ok (some 7)
    ∧ IntegerField.to_python (some "ABC".data)
        = .error (.valueError ("invalid literal for int(): ".data ++ "ABC".data))
    ∧ IntegerField.to_record 3 none = List.replicate 3 '0' := by
  have h := c7_integer_field
  exact ⟨h.2.1 [] (by decide), h.2.2.1 "007".data 7 (by decide) (by decide),
    h.2.2.2.1 "ABC".data (by decide) (by decide), (h.2.2.2.2 3 (by decide)).1⟩

end DjCopybook
